import Mathlib

/-!
Verification of the plugin lifecycle orchestrator (core/agent_core.go).

The embedding models a plugin by the observable behaviour of its lifecycle
hooks: the result of Init, whether AfterInit is implemented and its result,
and whether Close is implemented and its result.  The orchestrator loops of
agent_core.go are translated into Lean functions that thread an explicit
agent state (bookkeeping fields of the startup struct) and additionally
record the trace of plugin calls as a list of events, so that ordering
claims about Init, AfterInit and Close invocations can be stated.

Wall-clock durations (time.Since) are not computable in the embedding; the
duration carried inside the phase-failure errors is threaded as an opaque
integer parameter.
-/

namespace AgentCore

/-- Observable behaviour of one plugin instance.  initRes is the result of
the mandatory Init hook (none = success).  afterInit is none when the plugin
does not implement the optional PostInit capability, and some r when it does,
r being the result of AfterInit.  close is none when the plugin does not
implement the optional Close capability, and some r when it does, r being
the result of Close. -/
structure Plugin where
  initRes : Option String
  afterInit : Option (Option String)
  close : Option (Option String)
deriving DecidableEq

/-- NamedPlugin pairs a plugin with its stable name (core/named_plugin
declarations are not under src/; the spec describes the immutable pair). -/
structure NamedPlugin where
  pluginName : String
  plugin : Plugin
deriving DecidableEq

/-- A call actually performed on the plugin at a given registration index:
its Init hook, its AfterInit hook, or its Close hook. -/
inductive Event where
  | initCall (i : Nat)
  | afterInitCall (i : Nat)
  | closeCall (i : Nat)
deriving DecidableEq

/-- Structured form of the errors Start can return: the fmt.Errorf results
built from logErrorFmt, logPostErrorFmt and logTimeoutFmt, represented by
their format arguments. -/
inductive StartErr where
  | initErr (name err : String) (durNs : Int)
  | afterInitErr (name err : String) (durNs : Int)
  | timeout (currentlyProcessing : String)
deriving DecidableEq

/-- Modelled from the spec: safeclose.Close (utils/safeclose, not under
src/) invokes the release operation if present; absence is not an error. -/
def safecloseClose (p : Plugin) : Option String :=
  match p.close with
  | none => none
  | some r => r

/-- Modelled from the spec: the rollback loop of initPlugins passes the
NamedPlugin wrapper to safeclose.Close; per the spec the release operation
of the underlying plugin is invoked if present. -/
def safecloseCloseNamed (np : NamedPlugin) : Option String :=
  safecloseClose np.plugin

/-- Whether the plugin registered at index j implements Close. -/
def hasCloseAt (allP : List NamedPlugin) (j : Nat) : Bool :=
  match allP[j]? with
  | some p => p.plugin.close.isSome
  | none => false

/-- The close event emitted by one safeclose.Close application at index j:
a closeCall when the plugin implements Close, nothing otherwise. -/
def closeEvt (allP : List NamedPlugin) (j : Nat) : List Event :=
  if hasCloseAt allP j then [Event.closeCall j] else []

/-- Close events of the rollback loop of initPlugins
(for j := i; j >= 0; j-- \x7b safeclose.Close(agent.plugins[j]) \x7d). -/
def rollbackEvents (allP : List NamedPlugin) : Nat → List Event
  | 0 => closeEvt allP 0
  | j + 1 => closeEvt allP (j + 1) ++ rollbackEvents allP j

/-- Accumulation of one close error into the errMsg string of Stop. -/
def stopAccum (msg : String) (name : String) (res : Option String) : String :=
  match res with
  | none => msg
  | some e => (if msg.length > 0 then msg ++ "; " else msg) ++ name ++ ": " ++ e

/-- The loop of Stop (for i := len(plugins)-1; i >= 0; i--): the argument n
means that indices n-1 down to 0 remain to be processed.  Returns the close
events emitted and the final errMsg. -/
def stopLoop (allP : List NamedPlugin) : Nat → String → List Event × String
  | 0, msg => ([], msg)
  | n + 1, msg =>
    match allP[n]? with
    | none => stopLoop allP n msg
    | some p =>
      let r := stopLoop allP n (stopAccum msg p.pluginName (safecloseClose p.plugin))
      (closeEvt allP n ++ r.1, r.2)

/-- Agent.Stop: full reverse-order pass with error aggregation; returns the
trace of Close invocations and the aggregated error (none when errMsg is
empty). -/
def stop (allP : List NamedPlugin) : List Event × Option String :=
  let r := stopLoop allP allP.length ""
  (r.1, if r.2.length > 0 then some r.2 else none)

/-- The close events of a full Stop pass (the aggregated error is discarded,
as in the agent.Stop() call inside handleAfterInit). -/
def stopEvents (allP : List NamedPlugin) : List Event :=
  (stopLoop allP allP.length "").1

/-- The mutable bookkeeping of the startup struct, together with the trace
of plugin calls performed so far. -/
structure AgentState where
  marker : String
  events : List Event
  initSuccess : List NamedPlugin
  afterInitSuccess : List NamedPlugin
deriving DecidableEq

/-- Agent state before Start: empty bookkeeping. -/
def initialState : AgentState :=
  { marker := "", events := [], initSuccess := [], afterInitSuccess := [] }

/-- Agent.initPlugins: iterate the remaining plugins (rest) starting at
index i.  For each plugin: set currentlyProcessing to the plugin name with
the " Init()" suffix, call Init; on failure close plugins i down to 0 and
return the initErr built from the plugin name, its error and the elapsed
duration; on success append the plugin to initSuccess and continue.  Also
returns the list of intermediate states (one after the marker assignment,
one after the call completes), so that properties at every interleaving
point can be stated. -/
def initLoop (allP : List NamedPlugin) (dur : Int) :
    AgentState → Nat → List NamedPlugin →
    List AgentState × AgentState × Option StartErr
  | st, _, [] => ([], st, none)
  | st, i, p :: rest =>
    let st1 : AgentState := { st with marker := p.pluginName ++ " Init()" }
    match p.plugin.initRes with
    | some err =>
      let st2 : AgentState :=
        { st1 with events := st1.events ++ [Event.initCall i] ++ rollbackEvents allP i }
      ([st1, st2], st2, some (StartErr.initErr p.pluginName err dur))
    | none =>
      let st2 : AgentState :=
        { st1 with events := st1.events ++ [Event.initCall i],
                   initSuccess := st1.initSuccess ++ [p] }
      let r := initLoop allP dur st2 (i + 1) rest
      (st1 :: st2 :: r.1, r.2)

/-- Agent.handleAfterInit: iterate the remaining plugins starting at index
i.  For each plugin: set currentlyProcessing to the plugin name with the
" AfterInit()" suffix (for every plugin, before the capability check); if
the plugin implements PostInit, call AfterInit; on failure run the full
Stop pass over the registered list and return the afterInitErr; on success
append to afterInitSuccess; plugins without the capability are skipped. -/
def afterInitLoop (allP : List NamedPlugin) (dur : Int) :
    AgentState → Nat → List NamedPlugin →
    List AgentState × AgentState × Option StartErr
  | st, _, [] => ([], st, none)
  | st, i, p :: rest =>
    let st1 : AgentState := { st with marker := p.pluginName ++ " AfterInit()" }
    match p.plugin.afterInit with
    | none =>
      let r := afterInitLoop allP dur st1 (i + 1) rest
      (st1 :: r.1, r.2)
    | some (some err) =>
      let st2 : AgentState :=
        { st1 with events := st1.events ++ [Event.afterInitCall i] ++ stopEvents allP }
      ([st1, st2], st2, some (StartErr.afterInitErr p.pluginName err dur))
    | some none =>
      let st2 : AgentState :=
        { st1 with events := st1.events ++ [Event.afterInitCall i],
                   afterInitSuccess := st1.afterInitSuccess ++ [p] }
      let r := afterInitLoop allP dur st2 (i + 1) rest
      (st1 :: st2 :: r.1, r.2)

/-- The background startup unit of Agent.Start: initPlugins followed, when
it succeeds, by handleAfterInit.  Returns the interleaving states, the
final agent state and the error sent on errChannel (none when doneChannel
is closed). -/
def startExec (plugins : List NamedPlugin) (durI durA : Int) :
    List AgentState × AgentState × Option StartErr :=
  match initLoop plugins durI initialState 0 plugins with
  | (snaps1, fin1, some e) => (initialState :: snaps1, fin1, some e)
  | (snaps1, fin1, none) =>
    let r2 := afterInitLoop plugins durA fin1 0 plugins
    (initialState :: snaps1 ++ r2.1, r2.2)

/-- The timeout branch of the select in Agent.Start, firing when the
background unit is at interleaving point t: it reads the bookkeeping of
that state and builds the timeout error from currentlyProcessing, without
touching the background unit. -/
def timeoutResult (plugins : List NamedPlugin) (durI durA : Int) (t : Nat) :
    AgentState × StartErr :=
  let snaps := (startExec plugins durI durA).1
  let st := snaps.getD t initialState
  (st, StartErr.timeout st.marker)

/-- The message of the timeout error: fmt.Errorf(logTimeoutFmt, ...) with
logTimeoutFmt = "plugin %s not completed before timeout" applied to the
currentlyProcessing marker. -/
def logTimeoutMsg (currentlyProcessing : String) : String :=
  "plugin " ++ currentlyProcessing ++ " not completed before timeout"

/-- Agent.calculateDiff: the registered plugins not found (by the equality
the source applies to plugin handles) in the given list. -/
def calculateDiff (plugins S : List NamedPlugin) : List NamedPlugin :=
  plugins.filter (fun p => !(S.any (fun q => q == p)))

/-- The AfterInit call events that a failure-free pass over the given
plugins emits, starting at index i: one afterInitCall per plugin that
implements the capability, skipping the others. -/
def afterCallsFrom : Nat → List NamedPlugin → List Event
  | _, [] => []
  | i, p :: rest =>
    (if p.plugin.afterInit.isSome then [Event.afterInitCall i] else [])
      ++ afterCallsFrom (i + 1) rest

/-- The (name, error) pairs of the failing Close calls that Stop encounters
when processing indices n-1 down to 0, in processing order. -/
def closeFailsDesc (allP : List NamedPlugin) : Nat → List (String × String)
  | 0 => []
  | n + 1 =>
    (match allP[n]? with
     | some p =>
       match safecloseClose p.plugin with
       | some e => [(p.pluginName, e)]
       | none => []
     | none => []) ++ closeFailsDesc allP n

/-- Name-and-message entries joined with the "; " delimiter, the shape the
errMsg accumulation of Stop produces. -/
def joined : List (String × String) → String
  | [] => ""
  | [f] => f.1 ++ ": " ++ f.2
  | f :: g :: rest => f.1 ++ ": " ++ f.2 ++ "; " ++ joined (g :: rest)

/-- Two named plugins that agree on name and on the Init result; their
AfterInit and Close behaviours are left unrelated. -/
def sameInitBehaviour (p q : NamedPlugin) : Prop :=
  p.pluginName = q.pluginName ∧ p.plugin.initRes = q.plugin.initRes

/-! Helper lemmas: closed forms of the close-event traces. -/

theorem rollbackEvents_eq (allP : List NamedPlugin) (k : Nat) :
    rollbackEvents allP k
      = ((List.range (k + 1)).reverse.filter (hasCloseAt allP)).map Event.closeCall := by
  induction k with
  | zero =>
    have h1 : List.range 1 = [0] := by decide
    simp only [rollbackEvents, h1, List.reverse_singleton, List.filter]
    by_cases h : hasCloseAt allP 0 <;> simp [closeEvt, h]
  | succ k ih =>
    rw [rollbackEvents, List.range_succ, List.reverse_append, List.reverse_singleton,
      List.singleton_append, List.filter_cons, ih]
    by_cases h : hasCloseAt allP (k + 1) <;> simp [closeEvt, h]

theorem stopLoop_events (allP : List NamedPlugin) (n : Nat) :
    ∀ msg : String,
      (stopLoop allP n msg).1
        = ((List.range n).reverse.filter (hasCloseAt allP)).map Event.closeCall := by
  induction n with
  | zero => intro msg; simp [stopLoop]
  | succ n ih =>
    intro msg
    rw [stopLoop, List.range_succ, List.reverse_append, List.reverse_singleton,
      List.singleton_append, List.filter_cons]
    cases h : allP[n]? with
    | none =>
      have hc : hasCloseAt allP n = false := by simp [hasCloseAt, h]
      simp [h, ih, hc]
    | some p =>
      by_cases hc : hasCloseAt allP n <;> simp [h, ih, hc, closeEvt]

theorem stopEvents_eq (allP : List NamedPlugin) :
    stopEvents allP
      = ((List.range allP.length).reverse.filter (hasCloseAt allP)).map Event.closeCall := by
  rw [stopEvents, stopLoop_events]

theorem stop_events_eq (allP : List NamedPlugin) :
    (stop allP).1
      = ((List.range allP.length).reverse.filter (hasCloseAt allP)).map Event.closeCall := by
  rw [stop, stopLoop_events]

theorem mem_rollbackEvents (allP : List NamedPlugin) (k : Nat) (ev : Event)
    (h : ev ∈ rollbackEvents allP k) : ∃ j, j ≤ k ∧ ev = Event.closeCall j := by
  rw [rollbackEvents_eq] at h
  obtain ⟨j, hj, rfl⟩ := List.mem_map.mp h
  refine ⟨j, ?_, rfl⟩
  have := (List.mem_filter.mp hj).1
  simp only [List.mem_reverse, List.mem_range] at this
  omega

theorem mem_stopEvents (allP : List NamedPlugin) (ev : Event)
    (h : ev ∈ stopEvents allP) : ∃ j, ev = Event.closeCall j := by
  rw [stopEvents_eq] at h
  obtain ⟨j, _, rfl⟩ := List.mem_map.mp h
  exact ⟨j, rfl⟩

/-! Helper lemmas: the errMsg aggregation of Stop. -/

theorem string_length_pos (s : String) (h : s ≠ "") : 0 < s.length := by
  cases s with
  | mk data =>
    cases data with
    | nil => exact absurd rfl h
    | cons c cs => simp [String.length]

theorem stopAccum_some_eq (msg name e : String) (h : msg ≠ "") :
    stopAccum msg name (some e) = msg ++ "; " ++ (name ++ ": " ++ e) := by
  simp only [stopAccum]
  rw [if_pos (string_length_pos msg h)]
  simp only [String.append_assoc]

theorem stopAccum_some_ne (msg name e : String) :
    stopAccum msg name (some e) ≠ "" := by
  intro hcontra
  have hlen := congrArg String.length hcontra
  simp only [stopAccum, String.length_append] at hlen
  have h2 : (": " : String).length = 2 := rfl
  rw [h2] at hlen
  simp at hlen

theorem foldl_stopAccum_ne (fails : List (String × String)) :
    ∀ msg : String, msg ≠ "" →
      List.foldl (fun m f => stopAccum m f.1 (some f.2)) msg fails
        = if fails = [] then msg else msg ++ "; " ++ joined fails := by
  induction fails with
  | nil => intro msg _; simp
  | cons f rest ih =>
    intro msg hmsg
    simp only [List.foldl_cons]
    rw [ih _ (stopAccum_some_ne msg f.1 f.2)]
    cases rest with
    | nil => simp [joined, stopAccum_some_eq msg f.1 f.2 hmsg]
    | cons g r =>
      simp only [reduceCtorEq, if_false, stopAccum_some_eq msg f.1 f.2 hmsg]
      rw [joined]
      simp only [String.append_assoc]

theorem foldl_stopAccum_empty (fails : List (String × String)) :
    List.foldl (fun m f => stopAccum m f.1 (some f.2)) "" fails = joined fails := by
  cases fails with
  | nil => simp [joined]
  | cons f rest =>
    simp only [List.foldl_cons]
    have h0 : stopAccum "" f.1 (some f.2) = f.1 ++ ": " ++ f.2 := by
      simp [stopAccum]
    rw [h0, foldl_stopAccum_ne]
    · cases rest with
      | nil => simp [joined]
      | cons g r => simp [joined]
    · intro hcontra
      have hlen := congrArg String.length hcontra
      simp only [String.length_append] at hlen
      have h2 : (": " : String).length = 2 := rfl
      rw [h2] at hlen
      simp at hlen

theorem joined_ne_empty (fails : List (String × String)) (h : fails ≠ []) :
    joined fails ≠ "" := by
  cases fails with
  | nil => exact absurd rfl h
  | cons f rest =>
    intro hcontra
    have hlen := congrArg String.length hcontra
    have h2 : (": " : String).length = 2 := rfl
    cases rest with
    | nil =>
      simp only [joined, String.length_append, h2] at hlen
      simp at hlen
    | cons g r =>
      simp only [joined, String.length_append, h2] at hlen
      simp at hlen

theorem stopLoop_msg (allP : List NamedPlugin) (n : Nat) :
    ∀ msg : String,
      (stopLoop allP n msg).2
        = List.foldl (fun m f => stopAccum m f.1 (some f.2)) msg (closeFailsDesc allP n) := by
  induction n with
  | zero => intro msg; simp [stopLoop, closeFailsDesc]
  | succ n ih =>
    intro msg
    rw [stopLoop, closeFailsDesc]
    cases h : allP[n]? with
    | none => simp [ih]
    | some p =>
      cases hr : safecloseClose p.plugin with
      | none => simp [hr, ih, stopAccum]
      | some e => simp [hr, ih]

theorem stop_msg_eq (allP : List NamedPlugin) :
    (stop allP).2
      = if closeFailsDesc allP allP.length = [] then none
        else some (joined (closeFailsDesc allP allP.length)) := by
  rw [stop]
  simp only [stopLoop_msg, foldl_stopAccum_empty]
  by_cases h : closeFailsDesc allP allP.length = []
  · simp [h, joined]
  · have hne := joined_ne_empty _ h
    simp [h, string_length_pos _ hne]

/-! Helper lemmas: behaviour of the phase-1 loop. -/

theorem initLoop_ok (allP : List NamedPlugin) (d : Int) :
    ∀ (rest : List NamedPlugin) (st : AgentState) (i : Nat),
      (∀ p ∈ rest, p.plugin.initRes = none) →
      (initLoop allP d st i rest).2.2 = none ∧
      (initLoop allP d st i rest).2.1.events
        = st.events ++ (List.range' i rest.length).map Event.initCall ∧
      (initLoop allP d st i rest).2.1.initSuccess = st.initSuccess ++ rest ∧
      (initLoop allP d st i rest).2.1.afterInitSuccess = st.afterInitSuccess := by
  intro rest
  induction rest with
  | nil => intro st i _; simp [initLoop]
  | cons p rest ih =>
    intro st i hok
    have hp : p.plugin.initRes = none := hok p (List.mem_cons_self p rest)
    have hrest : ∀ q ∈ rest, q.plugin.initRes = none :=
      fun q hq => hok q (List.mem_cons_of_mem p hq)
    obtain ⟨h1, h2, h3, h4⟩ :=
      ih { marker := p.pluginName ++ " Init()",
           events := st.events ++ [Event.initCall i],
           initSuccess := st.initSuccess ++ [p],
           afterInitSuccess := st.afterInitSuccess } (i + 1) hrest
    simp [initLoop, hp, h1, h2, h3, h4, List.range'_succ, List.append_assoc]

theorem initLoop_fail (allP : List NamedPlugin) (d : Int) (err : String) :
    ∀ (pre : List NamedPlugin) (pf : NamedPlugin) (post : List NamedPlugin)
      (st : AgentState) (i : Nat),
      (∀ q ∈ pre, q.plugin.initRes = none) →
      pf.plugin.initRes = some err →
      (initLoop allP d st i (pre ++ pf :: post)).2.2
          = some (StartErr.initErr pf.pluginName err d) ∧
      (initLoop allP d st i (pre ++ pf :: post)).2.1.events
        = st.events ++ (List.range' i (pre.length + 1)).map Event.initCall
            ++ rollbackEvents allP (i + pre.length) ∧
      (initLoop allP d st i (pre ++ pf :: post)).2.1.initSuccess = st.initSuccess ++ pre ∧
      (initLoop allP d st i (pre ++ pf :: post)).2.1.afterInitSuccess = st.afterInitSuccess := by
  intro pre
  induction pre with
  | nil =>
    intro pf post st i _ hpf
    simp [initLoop, hpf, List.range'_one, List.append_assoc]
  | cons q pre ih =>
    intro pf post st i hok hpf
    have hq : q.plugin.initRes = none := hok q (List.mem_cons_self q pre)
    have hpre : ∀ x ∈ pre, x.plugin.initRes = none :=
      fun x hx => hok x (List.mem_cons_of_mem q hx)
    obtain ⟨h1, h2, h3, h4⟩ :=
      ih pf post
        { marker := q.pluginName ++ " Init()",
          events := st.events ++ [Event.initCall i],
          initSuccess := st.initSuccess ++ [q],
          afterInitSuccess := st.afterInitSuccess } (i + 1) hpre hpf
    have hidx : i + 1 + pre.length = i + (pre.length + 1) := by omega
    rw [hidx] at h2
    simp [initLoop, hq, h1, h2, h3, h4, List.range'_succ, List.append_assoc]

/-! Helper lemmas: behaviour of the phase-2 loop. -/

theorem afterInitLoop_ok (allP : List NamedPlugin) (d : Int) :
    ∀ (rest : List NamedPlugin) (st : AgentState) (i : Nat),
      (∀ p ∈ rest, ∀ e, p.plugin.afterInit ≠ some (some e)) →
      (afterInitLoop allP d st i rest).2.2 = none ∧
      (afterInitLoop allP d st i rest).2.1.events = st.events ++ afterCallsFrom i rest ∧
      (afterInitLoop allP d st i rest).2.1.afterInitSuccess
        = st.afterInitSuccess ++ rest.filter (fun p => p.plugin.afterInit.isSome) ∧
      (afterInitLoop allP d st i rest).2.1.initSuccess = st.initSuccess := by
  intro rest
  induction rest with
  | nil => intro st i _; simp [afterInitLoop, afterCallsFrom]
  | cons p rest ih =>
    intro st i hok
    have hrest : ∀ q ∈ rest, ∀ e, q.plugin.afterInit ≠ some (some e) :=
      fun q hq => hok q (List.mem_cons_of_mem p hq)
    cases hai : p.plugin.afterInit with
    | none =>
      obtain ⟨h1, h2, h3, h4⟩ :=
        ih { marker := p.pluginName ++ " AfterInit()",
             events := st.events,
             initSuccess := st.initSuccess,
             afterInitSuccess := st.afterInitSuccess } (i + 1) hrest
      simp [afterInitLoop, hai, h1, h2, h3, h4, afterCallsFrom, List.filter_cons]
    | some r =>
      cases r with
      | some e => exact absurd hai (hok p (List.mem_cons_self p rest) e)
      | none =>
        obtain ⟨h1, h2, h3, h4⟩ :=
          ih { marker := p.pluginName ++ " AfterInit()",
               events := st.events ++ [Event.afterInitCall i],
               initSuccess := st.initSuccess,
               afterInitSuccess := st.afterInitSuccess ++ [p] } (i + 1) hrest
        simp [afterInitLoop, hai, h1, h2, h3, h4, afterCallsFrom, List.filter_cons,
          List.append_assoc]

theorem afterInitLoop_fail (allP : List NamedPlugin) (d : Int) (err : String) :
    ∀ (pre : List NamedPlugin) (pf : NamedPlugin) (post : List NamedPlugin)
      (st : AgentState) (i : Nat),
      (∀ q ∈ pre, ∀ e, q.plugin.afterInit ≠ some (some e)) →
      pf.plugin.afterInit = some (some err) →
      (afterInitLoop allP d st i (pre ++ pf :: post)).2.2
          = some (StartErr.afterInitErr pf.pluginName err d) ∧
      (afterInitLoop allP d st i (pre ++ pf :: post)).2.1.events
        = st.events ++ afterCallsFrom i pre
            ++ [Event.afterInitCall (i + pre.length)] ++ stopEvents allP ∧
      (afterInitLoop allP d st i (pre ++ pf :: post)).2.1.afterInitSuccess
        = st.afterInitSuccess ++ pre.filter (fun p => p.plugin.afterInit.isSome) ∧
      (afterInitLoop allP d st i (pre ++ pf :: post)).2.1.initSuccess = st.initSuccess := by
  intro pre
  induction pre with
  | nil =>
    intro pf post st i _ hpf
    simp [afterInitLoop, hpf, afterCallsFrom, List.append_assoc]
  | cons q pre ih =>
    intro pf post st i hok hpf
    have hq := hok q (List.mem_cons_self q pre)
    have hpre : ∀ x ∈ pre, ∀ e, x.plugin.afterInit ≠ some (some e) :=
      fun x hx => hok x (List.mem_cons_of_mem q hx)
    have hidx : i + 1 + pre.length = i + (pre.length + 1) := by omega
    cases hai : q.plugin.afterInit with
    | none =>
      obtain ⟨h1, h2, h3, h4⟩ :=
        ih pf post
          { marker := q.pluginName ++ " AfterInit()",
            events := st.events,
            initSuccess := st.initSuccess,
            afterInitSuccess := st.afterInitSuccess } (i + 1) hpre hpf
      rw [hidx] at h2
      simp [afterInitLoop, hai, h1, h2, h3, h4, afterCallsFrom, List.filter_cons]
    | some r =>
      cases r with
      | some e => exact absurd hai (hq e)
      | none =>
        obtain ⟨h1, h2, h3, h4⟩ :=
          ih pf post
            { marker := q.pluginName ++ " AfterInit()",
              events := st.events ++ [Event.afterInitCall i],
              initSuccess := st.initSuccess,
              afterInitSuccess := st.afterInitSuccess ++ [q] } (i + 1) hpre hpf
        rw [hidx] at h2
        simp [afterInitLoop, hai, h1, h2, h3, h4, afterCallsFrom, List.filter_cons,
          List.append_assoc]

/-! Helper lemmas: the shape of the errors a loop can produce. -/

theorem initLoop_result_shape (allP : List NamedPlugin) (d : Int) :
    ∀ (rest : List NamedPlugin) (st : AgentState) (i : Nat),
      (initLoop allP d st i rest).2.2 = none ∨
      ∃ p e, p ∈ rest ∧ p.plugin.initRes = some e ∧
        (initLoop allP d st i rest).2.2 = some (StartErr.initErr p.pluginName e d) := by
  intro rest
  induction rest with
  | nil => intro st i; left; simp [initLoop]
  | cons p rest ih =>
    intro st i
    cases hp : p.plugin.initRes with
    | some err =>
      right
      exact ⟨p, err, List.mem_cons_self p rest, hp, by simp [initLoop, hp]⟩
    | none =>
      rcases ih { marker := p.pluginName ++ " Init()",
                  events := st.events ++ [Event.initCall i],
                  initSuccess := st.initSuccess ++ [p],
                  afterInitSuccess := st.afterInitSuccess } (i + 1) with h | ⟨q, e, hq, he, hr⟩
      · left; simp [initLoop, hp, h]
      · right
        exact ⟨q, e, List.mem_cons_of_mem p hq, he, by simp [initLoop, hp, hr]⟩

theorem afterInitLoop_result_shape (allP : List NamedPlugin) (d : Int) :
    ∀ (rest : List NamedPlugin) (st : AgentState) (i : Nat),
      (afterInitLoop allP d st i rest).2.2 = none ∨
      ∃ p e, p ∈ rest ∧ p.plugin.afterInit = some (some e) ∧
        (afterInitLoop allP d st i rest).2.2
          = some (StartErr.afterInitErr p.pluginName e d) := by
  intro rest
  induction rest with
  | nil => intro st i; left; simp [afterInitLoop]
  | cons p rest ih =>
    intro st i
    cases hai : p.plugin.afterInit with
    | none =>
      rcases ih { marker := p.pluginName ++ " AfterInit()",
                  events := st.events,
                  initSuccess := st.initSuccess,
                  afterInitSuccess := st.afterInitSuccess } (i + 1) with h | ⟨q, e, hq, he, hr⟩
      · left; simp [afterInitLoop, hai, h]
      · right
        exact ⟨q, e, List.mem_cons_of_mem p hq, he, by simp [afterInitLoop, hai, hr]⟩
    | some r =>
      cases r with
      | some e =>
        right
        exact ⟨p, e, List.mem_cons_self p rest, hai, by simp [afterInitLoop, hai]⟩
      | none =>
        rcases ih { marker := p.pluginName ++ " AfterInit()",
                    events := st.events ++ [Event.afterInitCall i],
                    initSuccess := st.initSuccess,
                    afterInitSuccess := st.afterInitSuccess ++ [p] } (i + 1) with
          h | ⟨q, e, hq, he, hr⟩
        · left; simp [afterInitLoop, hai, h]
        · right
          exact ⟨q, e, List.mem_cons_of_mem p hq, he, by simp [afterInitLoop, hai, hr]⟩

/-! Helper lemmas: the currentlyProcessing markers recorded at the
interleaving points of each loop. -/

theorem initLoop_snaps_markers (allP : List NamedPlugin) (d : Int) :
    ∀ (rest : List NamedPlugin) (st : AgentState) (i : Nat),
      (∀ p ∈ rest, p.plugin.initRes = none) →
      ((initLoop allP d st i rest).1).map (fun s => s.marker)
        = rest.flatMap
            (fun p => [p.pluginName ++ " Init()", p.pluginName ++ " Init()"]) := by
  intro rest
  induction rest with
  | nil => intro st i _; simp [initLoop]
  | cons p rest ih =>
    intro st i hok
    have hp : p.plugin.initRes = none := hok p (List.mem_cons_self p rest)
    have hrest : ∀ q ∈ rest, q.plugin.initRes = none :=
      fun q hq => hok q (List.mem_cons_of_mem p hq)
    have h := ih { marker := p.pluginName ++ " Init()",
                   events := st.events ++ [Event.initCall i],
                   initSuccess := st.initSuccess ++ [p],
                   afterInitSuccess := st.afterInitSuccess } (i + 1) hrest
    simp [initLoop, hp, h]

theorem afterInitLoop_snaps_markers (allP : List NamedPlugin) (d : Int) :
    ∀ (rest : List NamedPlugin) (st : AgentState) (i : Nat),
      (∀ p ∈ rest, ∀ e, p.plugin.afterInit ≠ some (some e)) →
      ((afterInitLoop allP d st i rest).1).map (fun s => s.marker)
        = rest.flatMap
            (fun p =>
              match p.plugin.afterInit with
              | none => [p.pluginName ++ " AfterInit()"]
              | some _ => [p.pluginName ++ " AfterInit()", p.pluginName ++ " AfterInit()"]) := by
  intro rest
  induction rest with
  | nil => intro st i _; simp [afterInitLoop]
  | cons p rest ih =>
    intro st i hok
    have hrest : ∀ q ∈ rest, ∀ e, q.plugin.afterInit ≠ some (some e) :=
      fun q hq => hok q (List.mem_cons_of_mem p hq)
    cases hai : p.plugin.afterInit with
    | none =>
      have h := ih { marker := p.pluginName ++ " AfterInit()",
                     events := st.events,
                     initSuccess := st.initSuccess,
                     afterInitSuccess := st.afterInitSuccess } (i + 1) hrest
      simp [afterInitLoop, hai, h]
    | some r =>
      cases r with
      | some e => exact absurd hai (hok p (List.mem_cons_self p rest) e)
      | none =>
        have h := ih { marker := p.pluginName ++ " AfterInit()",
                       events := st.events ++ [Event.afterInitCall i],
                       initSuccess := st.initSuccess,
                       afterInitSuccess := st.afterInitSuccess ++ [p] } (i + 1) hrest
        simp [afterInitLoop, hai, h]

/-! Helper lemmas: bookkeeping invariants at every interleaving point. -/

theorem initLoop_state_general (allP : List NamedPlugin) (d : Int) :
    ∀ (rest : List NamedPlugin) (st : AgentState) (i : Nat) (st2 : AgentState),
      (st2 = (initLoop allP d st i rest).2.1 ∨ st2 ∈ (initLoop allP d st i rest).1) →
      (∃ s, st2.initSuccess = st.initSuccess ++ s ∧ s.Sublist rest) ∧
      st2.afterInitSuccess = st.afterInitSuccess := by
  intro rest
  induction rest with
  | nil =>
    intro st i st2 hmem
    rcases hmem with h | h
    · subst h
      exact ⟨⟨[], by simp [initLoop], List.nil_sublist _⟩, by simp [initLoop]⟩
    · simp [initLoop] at h
  | cons p rest ih =>
    intro st i st2 hmem
    cases hp : p.plugin.initRes with
    | some err =>
      simp only [initLoop, hp] at hmem
      rcases hmem with h | h
      · subst h
        exact ⟨⟨[], by simp, List.nil_sublist _⟩, by simp⟩
      · simp only [List.mem_cons, List.mem_singleton, List.not_mem_nil, or_false] at h
        rcases h with h | h <;> subst h <;>
          exact ⟨⟨[], by simp, List.nil_sublist _⟩, by simp⟩
    | none =>
      simp only [initLoop, hp] at hmem
      rcases hmem with h | h
      · obtain ⟨⟨s, hs, hsub⟩, hafter⟩ := ih _ (i + 1) st2 (Or.inl h)
        simp only [List.append_assoc, List.singleton_append] at hs
        simp only [] at hafter
        exact ⟨⟨p :: s, hs, hsub.cons₂ p⟩, hafter⟩
      · simp only [List.mem_cons] at h
        rcases h with h | h | h
        · subst h
          exact ⟨⟨[], by simp, List.nil_sublist _⟩, by simp⟩
        · subst h
          exact ⟨⟨[p], by simp, (List.nil_sublist rest).cons₂ p⟩, by simp⟩
        · obtain ⟨⟨s, hs, hsub⟩, hafter⟩ := ih _ (i + 1) st2 (Or.inr h)
          simp only [List.append_assoc, List.singleton_append] at hs
          simp only [] at hafter
          exact ⟨⟨p :: s, hs, hsub.cons₂ p⟩, hafter⟩

theorem afterInitLoop_state_general (allP : List NamedPlugin) (d : Int) :
    ∀ (rest : List NamedPlugin) (st : AgentState) (i : Nat) (st2 : AgentState),
      (st2 = (afterInitLoop allP d st i rest).2.1 ∨
        st2 ∈ (afterInitLoop allP d st i rest).1) →
      (∃ s, st2.afterInitSuccess = st.afterInitSuccess ++ s ∧ s.Sublist rest ∧
        ∀ p ∈ s, p.plugin.afterInit.isSome) ∧
      st2.initSuccess = st.initSuccess := by
  intro rest
  induction rest with
  | nil =>
    intro st i st2 hmem
    rcases hmem with h | h
    · subst h
      exact ⟨⟨[], by simp [afterInitLoop], List.nil_sublist _, by simp⟩,
        by simp [afterInitLoop]⟩
    · simp [afterInitLoop] at h
  | cons p rest ih =>
    intro st i st2 hmem
    cases hai : p.plugin.afterInit with
    | none =>
      simp only [afterInitLoop, hai] at hmem
      rcases hmem with h | h
      · obtain ⟨⟨s, hs, hsub, hcap⟩, hinit⟩ := ih _ (i + 1) st2 (Or.inl h)
        simp only [] at hs hinit
        exact ⟨⟨s, hs, hsub.cons p, hcap⟩, hinit⟩
      · simp only [List.mem_cons] at h
        rcases h with h | h
        · subst h
          exact ⟨⟨[], by simp, List.nil_sublist _, by simp⟩, by simp⟩
        · obtain ⟨⟨s, hs, hsub, hcap⟩, hinit⟩ := ih _ (i + 1) st2 (Or.inr h)
          simp only [] at hs hinit
          exact ⟨⟨s, hs, hsub.cons p, hcap⟩, hinit⟩
    | some r =>
      cases r with
      | some e =>
        simp only [afterInitLoop, hai] at hmem
        rcases hmem with h | h
        · subst h
          exact ⟨⟨[], by simp, List.nil_sublist _, by simp⟩, by simp⟩
        · simp only [List.mem_cons, List.mem_singleton, List.not_mem_nil, or_false] at h
          rcases h with h | h <;> subst h <;>
            exact ⟨⟨[], by simp, List.nil_sublist _, by simp⟩, by simp⟩
      | none =>
        simp only [afterInitLoop, hai] at hmem
        have hcapP : p.plugin.afterInit.isSome := by simp [hai]
        have hstep :
            ∀ s, List.Sublist s rest → (∀ q ∈ s, q.plugin.afterInit.isSome = true) →
              ∀ q ∈ p :: s, q.plugin.afterInit.isSome = true := by
          intro s _ hcap q hq
          rcases List.mem_cons.mp hq with h2 | h2
          · rw [h2]; exact hcapP
          · exact hcap q h2
        rcases hmem with h | h
        · obtain ⟨⟨s, hs, hsub, hcap⟩, hinit⟩ := ih _ (i + 1) st2 (Or.inl h)
          simp only [List.append_assoc, List.singleton_append] at hs
          simp only [] at hinit
          exact ⟨⟨p :: s, hs, hsub.cons₂ p, hstep s hsub hcap⟩, hinit⟩
        · simp only [List.mem_cons] at h
          rcases h with h | h | h
          · subst h
            exact ⟨⟨[], by simp, List.nil_sublist _, by simp⟩, by simp⟩
          · subst h
            refine ⟨⟨[p], by simp, (List.nil_sublist rest).cons₂ p, ?_⟩, by simp⟩
            intro q hq
            rw [List.mem_singleton.mp hq]
            exact hcapP
          · obtain ⟨⟨s, hs, hsub, hcap⟩, hinit⟩ := ih _ (i + 1) st2 (Or.inr h)
            simp only [List.append_assoc, List.singleton_append] at hs
            simp only [] at hinit
            exact ⟨⟨p :: s, hs, hsub.cons₂ p, hstep s hsub hcap⟩, hinit⟩

/-! Helper lemmas: which events each loop can emit. -/

theorem initLoop_events_general (allP : List NamedPlugin) (d : Int) :
    ∀ (rest : List NamedPlugin) (st : AgentState) (i : Nat) (ev : Event),
      ev ∈ (initLoop allP d st i rest).2.1.events →
      ev ∈ st.events ∨ (∃ j, ev = Event.initCall j) ∨ (∃ j, ev = Event.closeCall j) := by
  intro rest
  induction rest with
  | nil =>
    intro st i ev h
    simp only [initLoop] at h
    exact Or.inl h
  | cons p rest ih =>
    intro st i ev h
    cases hp : p.plugin.initRes with
    | some err =>
      simp only [initLoop, hp] at h
      simp only [List.append_assoc, List.singleton_append, List.mem_append,
        List.mem_cons] at h
      rcases h with h | h | h
      · exact Or.inl h
      · exact Or.inr (Or.inl ⟨i, h⟩)
      · obtain ⟨j, _, hj⟩ := mem_rollbackEvents allP i ev h
        exact Or.inr (Or.inr ⟨j, hj⟩)
    | none =>
      simp only [initLoop, hp] at h
      rcases ih _ (i + 1) ev h with h2 | h2 | h2
      · simp only [List.mem_append, List.mem_singleton] at h2
        rcases h2 with h3 | h3
        · exact Or.inl h3
        · exact Or.inr (Or.inl ⟨i, h3⟩)
      · exact Or.inr (Or.inl h2)
      · exact Or.inr (Or.inr h2)

theorem afterInitLoop_calls (allP : List NamedPlugin) (d : Int) :
    ∀ (rest : List NamedPlugin) (st : AgentState) (i j : Nat),
      Event.afterInitCall j ∈ (afterInitLoop allP d st i rest).2.1.events →
      Event.afterInitCall j ∈ st.events ∨
      (i ≤ j ∧ ∃ p, rest[j - i]? = some p ∧ p.plugin.afterInit.isSome) := by
  intro rest
  induction rest with
  | nil =>
    intro st i j h
    simp only [afterInitLoop] at h
    exact Or.inl h
  | cons p rest ih =>
    intro st i j h
    have hshift :
        (i + 1 ≤ j ∧ ∃ q, rest[j - (i + 1)]? = some q ∧ q.plugin.afterInit.isSome) →
        i ≤ j ∧ ∃ q, (p :: rest)[j - i]? = some q ∧ q.plugin.afterInit.isSome := by
      rintro ⟨hle, q, hget, hcap⟩
      refine ⟨by omega, q, ?_, hcap⟩
      have hji : j - i = (j - (i + 1)) + 1 := by omega
      rw [hji, List.getElem?_cons_succ]
      exact hget
    cases hai : p.plugin.afterInit with
    | none =>
      simp only [afterInitLoop, hai] at h
      rcases ih _ (i + 1) j h with h2 | h2
      · exact Or.inl h2
      · exact Or.inr (hshift h2)
    | some r =>
      cases r with
      | some e =>
        simp only [afterInitLoop, hai] at h
        simp only [List.append_assoc, List.singleton_append, List.mem_append,
          List.mem_cons] at h
        rcases h with h | h | h
        · exact Or.inl h
        · have hj : j = i := by
            injection h with h2
          subst hj
          refine Or.inr ⟨Nat.le_refl j, p, ?_, by simp [hai]⟩
          simp
        · obtain ⟨k, hk⟩ := mem_stopEvents allP _ h
          exact absurd hk (by simp)
      | none =>
        simp only [afterInitLoop, hai] at h
        rcases ih _ (i + 1) j h with h2 | h2
        · simp only [List.mem_append, List.mem_singleton] at h2
          rcases h2 with h3 | h3
          · exact Or.inl h3
          · have hj : j = i := by injection h3
            subst hj
            refine Or.inr ⟨Nat.le_refl j, p, ?_, by simp [hai]⟩
            simp
        · exact Or.inr (hshift h2)

theorem initLoop_no_close_ok (allP : List NamedPlugin) (d : Int) :
    ∀ (rest : List NamedPlugin) (st : AgentState) (i : Nat),
      (∀ p ∈ rest, p.plugin.initRes = none) →
      ∀ st2, (st2 = (initLoop allP d st i rest).2.1 ∨
          st2 ∈ (initLoop allP d st i rest).1) →
        ∀ j, Event.closeCall j ∈ st2.events → Event.closeCall j ∈ st.events := by
  intro rest
  induction rest with
  | nil =>
    intro st i _ st2 hmem j hj
    rcases hmem with h | h
    · subst h
      simpa [initLoop] using hj
    · simp [initLoop] at h
  | cons p rest ih =>
    intro st i hok st2 hmem j hj
    have hp : p.plugin.initRes = none := hok p (List.mem_cons_self p rest)
    have hrest : ∀ q ∈ rest, q.plugin.initRes = none :=
      fun q hq => hok q (List.mem_cons_of_mem p hq)
    have hstep : ∀ st3 : AgentState,
        st3.events = st.events ++ [Event.initCall i] →
        Event.closeCall j ∈ st3.events → Event.closeCall j ∈ st.events := by
      intro st3 hev hmem3
      rw [hev] at hmem3
      simp only [List.mem_append, List.mem_singleton] at hmem3
      rcases hmem3 with h3 | h3
      · exact h3
      · exact absurd h3 (by simp)
    simp only [initLoop, hp] at hmem
    rcases hmem with h | h
    · have h4 := ih _ (i + 1) hrest st2 (Or.inl h) j hj
      exact hstep _ rfl h4
    · simp only [List.mem_cons] at h
      rcases h with h | h | h
      · subst h
        exact hj
      · subst h
        exact hstep _ rfl hj
      · have h4 := ih _ (i + 1) hrest st2 (Or.inr h) j hj
        exact hstep _ rfl h4

theorem afterInitLoop_no_close_ok (allP : List NamedPlugin) (d : Int) :
    ∀ (rest : List NamedPlugin) (st : AgentState) (i : Nat),
      (∀ p ∈ rest, ∀ e, p.plugin.afterInit ≠ some (some e)) →
      ∀ st2, (st2 = (afterInitLoop allP d st i rest).2.1 ∨
          st2 ∈ (afterInitLoop allP d st i rest).1) →
        ∀ j, Event.closeCall j ∈ st2.events → Event.closeCall j ∈ st.events := by
  intro rest
  induction rest with
  | nil =>
    intro st i _ st2 hmem j hj
    rcases hmem with h | h
    · subst h
      simpa [afterInitLoop] using hj
    · simp [afterInitLoop] at h
  | cons p rest ih =>
    intro st i hok st2 hmem j hj
    have hrest : ∀ q ∈ rest, ∀ e, q.plugin.afterInit ≠ some (some e) :=
      fun q hq => hok q (List.mem_cons_of_mem p hq)
    have hstep : ∀ st3 : AgentState,
        st3.events = st.events ++ [Event.afterInitCall i] →
        Event.closeCall j ∈ st3.events → Event.closeCall j ∈ st.events := by
      intro st3 hev hmem3
      rw [hev] at hmem3
      simp only [List.mem_append, List.mem_singleton] at hmem3
      rcases hmem3 with h3 | h3
      · exact h3
      · exact absurd h3 (by simp)
    cases hai : p.plugin.afterInit with
    | none =>
      simp only [afterInitLoop, hai] at hmem
      rcases hmem with h | h
      · exact ih _ (i + 1) hrest st2 (Or.inl h) j hj
      · simp only [List.mem_cons] at h
        rcases h with h | h
        · subst h
          exact hj
        · exact ih _ (i + 1) hrest st2 (Or.inr h) j hj
    | some r =>
      cases r with
      | some e => exact absurd hai (hok p (List.mem_cons_self p rest) e)
      | none =>
        simp only [afterInitLoop, hai] at hmem
        rcases hmem with h | h
        · have h4 := ih _ (i + 1) hrest st2 (Or.inl h) j hj
          exact hstep _ rfl h4
        · simp only [List.mem_cons] at h
          rcases h with h | h | h
          · subst h
            exact hj
          · subst h
            exact hstep _ rfl hj
          · have h4 := ih _ (i + 1) hrest st2 (Or.inr h) j hj
            exact hstep _ rfl h4

/-! Helper lemmas: composed behaviour of the whole startup unit. -/

theorem startExec_eq_of_fail (plugins : List NamedPlugin) (dI dA : Int)
    (snaps1 : List AgentState) (fin1 : AgentState) (e : StartErr)
    (heq : initLoop plugins dI initialState 0 plugins = (snaps1, fin1, some e)) :
    startExec plugins dI dA = (initialState :: snaps1, fin1, some e) := by
  simp [startExec, heq]

theorem startExec_eq_of_none (plugins : List NamedPlugin) (dI dA : Int)
    (snaps1 : List AgentState) (fin1 : AgentState)
    (heq : initLoop plugins dI initialState 0 plugins = (snaps1, fin1, none)) :
    startExec plugins dI dA
      = (initialState :: snaps1 ++ (afterInitLoop plugins dA fin1 0 plugins).1,
          (afterInitLoop plugins dA fin1 0 plugins).2) := by
  simp [startExec, heq]

theorem startExec_init_fail (pre post : List NamedPlugin) (pf : NamedPlugin)
    (dI dA : Int) (err : String)
    (hpre : ∀ q ∈ pre, q.plugin.initRes = none)
    (hpf : pf.plugin.initRes = some err) :
    (startExec (pre ++ pf :: post) dI dA).2.2
        = some (StartErr.initErr pf.pluginName err dI) ∧
    (startExec (pre ++ pf :: post) dI dA).2.1.events
      = (List.range (pre.length + 1)).map Event.initCall
          ++ rollbackEvents (pre ++ pf :: post) pre.length ∧
    (startExec (pre ++ pf :: post) dI dA).2.1.initSuccess = pre ∧
    (startExec (pre ++ pf :: post) dI dA).2.1.afterInitSuccess = [] := by
  obtain ⟨h1, h2, h3, h4⟩ :=
    initLoop_fail (pre ++ pf :: post) dI err pre pf post initialState 0 hpre hpf
  rcases heq : initLoop (pre ++ pf :: post) dI initialState 0 (pre ++ pf :: post) with
    ⟨snaps1, fin1, res1⟩
  rw [heq] at h1 h2 h3 h4
  dsimp only at h1 h2 h3 h4
  subst h1
  rw [startExec_eq_of_fail (pre ++ pf :: post) dI dA snaps1 fin1 _ heq]
  refine ⟨rfl, ?_, ?_, ?_⟩
  · dsimp only
    rw [h2]
    simp [initialState, ← List.range_eq_range']
  · dsimp only
    rw [h3]
    simp [initialState]
  · dsimp only
    rw [h4]
    simp [initialState]

theorem startExec_all_ok (plugins : List NamedPlugin) (dI dA : Int)
    (hinit : ∀ p ∈ plugins, p.plugin.initRes = none)
    (hafter : ∀ p ∈ plugins, ∀ e, p.plugin.afterInit ≠ some (some e)) :
    (startExec plugins dI dA).2.2 = none ∧
    (startExec plugins dI dA).2.1.events
      = (List.range plugins.length).map Event.initCall ++ afterCallsFrom 0 plugins ∧
    (startExec plugins dI dA).2.1.initSuccess = plugins ∧
    (startExec plugins dI dA).2.1.afterInitSuccess
      = plugins.filter (fun p => p.plugin.afterInit.isSome) := by
  obtain ⟨h1, h2, h3, h4⟩ := initLoop_ok plugins dI plugins initialState 0 hinit
  rcases heq : initLoop plugins dI initialState 0 plugins with ⟨snaps1, fin1, res1⟩
  rw [heq] at h1 h2 h3 h4
  dsimp only at h1 h2 h3 h4
  subst h1
  obtain ⟨g1, g2, g3, g4⟩ := afterInitLoop_ok plugins dA plugins fin1 0 hafter
  rw [startExec_eq_of_none plugins dI dA snaps1 fin1 heq]
  refine ⟨g1, ?_, ?_, ?_⟩
  · dsimp only
    rw [g2, h2]
    simp [initialState, ← List.range_eq_range']
  · dsimp only
    rw [g4, h3]
    simp [initialState]
  · dsimp only
    rw [g3, h4]
    simp [initialState]

theorem startExec_after_fail (pre post : List NamedPlugin) (pf : NamedPlugin)
    (dI dA : Int) (err : String)
    (hinit : ∀ p ∈ pre ++ pf :: post, p.plugin.initRes = none)
    (hpre : ∀ q ∈ pre, ∀ e, q.plugin.afterInit ≠ some (some e))
    (hpf : pf.plugin.afterInit = some (some err)) :
    (startExec (pre ++ pf :: post) dI dA).2.2
        = some (StartErr.afterInitErr pf.pluginName err dA) ∧
    (startExec (pre ++ pf :: post) dI dA).2.1.events
      = (List.range (pre ++ pf :: post).length).map Event.initCall
          ++ afterCallsFrom 0 pre ++ [Event.afterInitCall pre.length]
          ++ stopEvents (pre ++ pf :: post) := by
  obtain ⟨h1, h2, h3, h4⟩ :=
    initLoop_ok (pre ++ pf :: post) dI (pre ++ pf :: post) initialState 0 hinit
  rcases heq : initLoop (pre ++ pf :: post) dI initialState 0 (pre ++ pf :: post) with
    ⟨snaps1, fin1, res1⟩
  rw [heq] at h1 h2 h3 h4
  dsimp only at h1 h2 h3 h4
  subst h1
  obtain ⟨g1, g2, g3, g4⟩ :=
    afterInitLoop_fail (pre ++ pf :: post) dA err pre pf post fin1 0 hpre hpf
  rw [startExec_eq_of_none (pre ++ pf :: post) dI dA snaps1 fin1 heq]
  refine ⟨g1, ?_⟩
  dsimp only
  rw [g2, h2]
  simp [initialState, ← List.range_eq_range', List.append_assoc]

/-! Helper lemmas: Forall₂ plumbing for the close-independence argument. -/

theorem forall₂_append_left_decomp {α β : Type} {R : α → β → Prop} :
    ∀ (l1 l2 : List α) (m : List β), List.Forall₂ R (l1 ++ l2) m →
      ∃ m1 m2, m = m1 ++ m2 ∧ List.Forall₂ R l1 m1 ∧ List.Forall₂ R l2 m2 := by
  intro l1
  induction l1 with
  | nil =>
    intro l2 m h
    exact ⟨[], m, by simp, List.Forall₂.nil, by simpa using h⟩
  | cons a l1 ih =>
    intro l2 m h
    rw [List.cons_append, List.forall₂_cons_left_iff] at h
    obtain ⟨b, u, hab, hu, rfl⟩ := h
    obtain ⟨m1, m2, rfl, hm1, hm2⟩ := ih l2 u hu
    exact ⟨b :: m1, m2, by simp, List.Forall₂.cons hab hm1, hm2⟩

theorem forall₂_mem_right {α β : Type} {R : α → β → Prop} :
    ∀ (l : List α) (m : List β), List.Forall₂ R l m →
      ∀ b ∈ m, ∃ a ∈ l, R a b := by
  intro l
  induction l with
  | nil =>
    intro m h b hb
    rw [List.forall₂_nil_left_iff] at h
    subst h
    exact absurd hb (List.not_mem_nil b)
  | cons a l ih =>
    intro m h b hb
    rw [List.forall₂_cons_left_iff] at h
    obtain ⟨c, u, hac, hu, rfl⟩ := h
    rcases List.mem_cons.mp hb with h2 | h2
    · exact ⟨a, List.mem_cons_self a l, h2 ▸ hac⟩
    · obtain ⟨x, hx, hR⟩ := ih u hu b h2
      exact ⟨x, List.mem_cons_of_mem a hx, hR⟩

/-! Helper lemmas: membership facts for calculateDiff. -/

theorem filter_mem_of_sublist (plugins S : List NamedPlugin)
    (hnd : plugins.Nodup) (hsub : S.Sublist plugins) :
    plugins.filter (fun p => S.any (fun q => q == p)) = S := by
  induction hsub with
  | slnil => simp
  | @cons S l2 a hsub ih =>
    have hnd2 : l2.Nodup := (List.nodup_cons.mp hnd).2
    have hna : a ∉ l2 := (List.nodup_cons.mp hnd).1
    have hnaS : a ∉ S := fun h => hna (hsub.subset h)
    have hfalse : S.any (fun q => q == a) = false := by
      rw [Bool.eq_false_iff]
      intro hcontra
      rw [List.any_eq_true] at hcontra
      obtain ⟨q, hq, hqa⟩ := hcontra
      rw [beq_iff_eq] at hqa
      exact hnaS (hqa ▸ hq)
    rw [List.filter_cons, hfalse]
    simpa using ih hnd2
  | @cons₂ S l2 a hsub ih =>
    have hnd2 : l2.Nodup := (List.nodup_cons.mp hnd).2
    have hna : a ∉ l2 := (List.nodup_cons.mp hnd).1
    have htrue : (a :: S).any (fun q => q == a) = true := by
      simp
    rw [List.filter_cons, htrue]
    have hcongr :
        l2.filter (fun p => (a :: S).any (fun q => q == p))
          = l2.filter (fun p => S.any (fun q => q == p)) := by
      apply List.filter_congr
      intro x hx
      have hxa : ¬(a = x) := fun h => hna (h ▸ hx)
      simp [List.any_cons, hxa]
    rw [hcongr, ih hnd2]
    simp

theorem initLoop_none_initSuccess (allP : List NamedPlugin) (d : Int) :
    ∀ (rest : List NamedPlugin) (st : AgentState) (i : Nat),
      (initLoop allP d st i rest).2.2 = none →
      (initLoop allP d st i rest).2.1.initSuccess = st.initSuccess ++ rest := by
  intro rest
  induction rest with
  | nil => intro st i _; simp [initLoop]
  | cons p rest ih =>
    intro st i hres
    cases hp : p.plugin.initRes with
    | some err =>
      rw [show (initLoop allP d st i (p :: rest)).2.2
          = some (StartErr.initErr p.pluginName err d) by simp [initLoop, hp]] at hres
      exact absurd hres (by simp)
    | none =>
      have h2 := ih { marker := p.pluginName ++ " Init()",
                      events := st.events ++ [Event.initCall i],
                      initSuccess := st.initSuccess ++ [p],
                      afterInitSuccess := st.afterInitSuccess } (i + 1)
      simp only [initLoop, hp] at hres ⊢
      rw [h2 hres]
      simp

/-! Claim theorems. -/

/-- C4: when every Init succeeds and every implemented AfterInit succeeds,
the startup unit reports no error and the plugins recorded as phase-1
successful are exactly the full registered list in registration order. -/
theorem C4_all_success (plugins : List NamedPlugin) (dI dA : Int)
    (hinit : ∀ p ∈ plugins, p.plugin.initRes = none)
    (hafter : ∀ p ∈ plugins, ∀ e, p.plugin.afterInit ≠ some (some e)) :
    (startExec plugins dI dA).2.2 = none ∧
    (startExec plugins dI dA).2.1.initSuccess = plugins := by
  obtain ⟨h1, _, h3, _⟩ := startExec_all_ok plugins dI dA hinit hafter
  exact ⟨h1, h3⟩

/-- Witness for C4 at a concrete two-plugin list. -/
theorem C4_all_success_witness :
    (startExec
        [⟨"A", ⟨none, some none, some none⟩⟩, ⟨"B", ⟨none, none, none⟩⟩] 5 7).2.2
      = none ∧
    (startExec
        [⟨"A", ⟨none, some none, some none⟩⟩, ⟨"B", ⟨none, none, none⟩⟩] 5 7).2.1.initSuccess
      = [⟨"A", ⟨none, some none, some none⟩⟩, ⟨"B", ⟨none, none, none⟩⟩] :=
  C4_all_success [⟨"A", ⟨none, some none, some none⟩⟩, ⟨"B", ⟨none, none, none⟩⟩] 5 7
    (by decide) (by simp)

/-- C1: when the plugin at index k = pre.length is the first whose Init
fails, the startup unit emits the Init calls for indices 0..k only, then the
rollback Close calls for indices k down to 0 (those plugins that implement
Close) in strict descending order, touches no index above k, never calls
AfterInit, and reports the initErr naming the failing plugin with its error
and the elapsed duration. -/
theorem C1_init_fail_rollback (pre post : List NamedPlugin) (pf : NamedPlugin)
    (dI dA : Int) (err : String)
    (hpre : ∀ q ∈ pre, q.plugin.initRes = none)
    (hpf : pf.plugin.initRes = some err) :
    (startExec (pre ++ pf :: post) dI dA).2.2
        = some (StartErr.initErr pf.pluginName err dI) ∧
    (startExec (pre ++ pf :: post) dI dA).2.1.events
      = (List.range (pre.length + 1)).map Event.initCall
          ++ ((List.range (pre.length + 1)).reverse.filter
                (hasCloseAt (pre ++ pf :: post))).map Event.closeCall ∧
    (∀ j, pre.length < j →
        Event.initCall j ∉ (startExec (pre ++ pf :: post) dI dA).2.1.events ∧
        Event.closeCall j ∉ (startExec (pre ++ pf :: post) dI dA).2.1.events) ∧
    ∀ j, Event.afterInitCall j ∉ (startExec (pre ++ pf :: post) dI dA).2.1.events := by
  obtain ⟨h1, h2, _, _⟩ := startExec_init_fail pre post pf dI dA err hpre hpf
  rw [rollbackEvents_eq] at h2
  refine ⟨h1, h2, ?_, ?_⟩
  · intro j hj
    rw [h2]
    constructor
    · intro hmem
      simp only [List.mem_append, List.mem_map, List.mem_reverse, List.mem_filter,
        List.mem_range, Event.initCall.injEq, Event.closeCall.injEq,
        reduceCtorEq] at hmem
      rcases hmem with ⟨a, ha, rfl⟩ | ⟨a, ⟨ha, _⟩, hcontra⟩
      · omega
      · exact absurd hcontra (by simp)
    · intro hmem
      simp only [List.mem_append, List.mem_map, List.mem_reverse, List.mem_filter,
        List.mem_range, Event.initCall.injEq, Event.closeCall.injEq,
        reduceCtorEq] at hmem
      rcases hmem with ⟨a, ha, hcontra⟩ | ⟨a, ⟨ha, _⟩, rfl⟩
      · exact absurd hcontra (by simp)
      · omega
  · intro j
    rw [h2]
    intro hmem
    simp only [List.mem_append, List.mem_map] at hmem
    rcases hmem with ⟨a, _, hcontra⟩ | ⟨a, _, hcontra⟩ <;>
      exact absurd hcontra (by simp)

/-- Witness for C1: plugins A (ok), B (Init fails), C (never reached). -/
theorem C1_init_fail_rollback_witness :
    (∀ q ∈ [(⟨"A", ⟨none, none, some none⟩⟩ : NamedPlugin)], q.plugin.initRes = none) ∧
    (⟨"B", ⟨some "boom", none, some none⟩⟩ : NamedPlugin).plugin.initRes = some "boom" ∧
    (startExec
        ([⟨"A", ⟨none, none, some none⟩⟩]
          ++ (⟨"B", ⟨some "boom", none, some none⟩⟩ : NamedPlugin)
            :: [⟨"C", ⟨none, none, some none⟩⟩]) 5 7).2.2
      = some (StartErr.initErr "B" "boom" 5) := by
  refine ⟨by decide, by decide, ?_⟩
  exact (C1_init_fail_rollback [⟨"A", ⟨none, none, some none⟩⟩]
    [⟨"C", ⟨none, none, some none⟩⟩] ⟨"B", ⟨some "boom", none, some none⟩⟩
    5 7 "boom" (by decide) (by decide)).1

/-- C7: the phase-1 error is built only from the failing plugin name, its
own Init error and the elapsed duration: for every variation of the list
that keeps names and Init results but changes AfterInit and Close behaviour
arbitrarily (in particular the results of the rollback Close calls), the
reported error is unchanged. -/
theorem C7_rollback_close_errors_not_propagated (pre post : List NamedPlugin)
    (pf : NamedPlugin) (dI dA : Int) (err : String)
    (hpre : ∀ q ∈ pre, q.plugin.initRes = none)
    (hpf : pf.plugin.initRes = some err) :
    ∀ plugins2, List.Forall₂ sameInitBehaviour (pre ++ pf :: post) plugins2 →
      (startExec plugins2 dI dA).2.2
        = some (StartErr.initErr pf.pluginName err dI) := by
  intro plugins2 hrel
  obtain ⟨m1, m2, rfl, hm1, hm2⟩ :=
    forall₂_append_left_decomp pre (pf :: post) plugins2 hrel
  rw [List.forall₂_cons_left_iff] at hm2
  obtain ⟨pf2, post2, hpf2, hpost2, rfl⟩ := hm2
  have hm1ok : ∀ q ∈ m1, q.plugin.initRes = none := by
    intro q hq
    obtain ⟨a, ha, hR⟩ := forall₂_mem_right pre m1 hm1 q hq
    exact hR.2.symm.trans (hpre a ha)
  have hpf2init : pf2.plugin.initRes = some err := hpf2.2.symm.trans hpf
  have hname : pf.pluginName = pf2.pluginName := hpf2.1
  rw [(startExec_init_fail m1 post2 pf2 dI dA err hm1ok hpf2init).1, hname]

/-- Witness for C7: the original list closes cleanly, the varied list fails
both rollback Close calls; the reported error is the same. -/
theorem C7_rollback_close_errors_not_propagated_witness :
    (∀ q ∈ [(⟨"A", ⟨none, none, some none⟩⟩ : NamedPlugin)], q.plugin.initRes = none) ∧
    (⟨"B", ⟨some "boom", none, some none⟩⟩ : NamedPlugin).plugin.initRes = some "boom" ∧
    List.Forall₂ sameInitBehaviour
      ([⟨"A", ⟨none, none, some none⟩⟩]
        ++ (⟨"B", ⟨some "boom", none, some none⟩⟩ : NamedPlugin) :: [])
      [⟨"A", ⟨none, none, some (some "closefail")⟩⟩,
        ⟨"B", ⟨some "boom", none, some (some "closefail")⟩⟩] ∧
    (startExec
        [⟨"A", ⟨none, none, some (some "closefail")⟩⟩,
          ⟨"B", ⟨some "boom", none, some (some "closefail")⟩⟩] 5 7).2.2
      = some (StartErr.initErr "B" "boom" 5) := by
  refine ⟨by decide, by decide, ?_, ?_⟩
  · refine List.Forall₂.cons ⟨rfl, rfl⟩ (List.Forall₂.cons ⟨rfl, rfl⟩ List.Forall₂.nil)
  · exact C7_rollback_close_errors_not_propagated
      [⟨"A", ⟨none, none, some none⟩⟩] [] ⟨"B", ⟨some "boom", none, some none⟩⟩
      5 7 "boom" (by decide) (by decide)
      [⟨"A", ⟨none, none, some (some "closefail")⟩⟩,
        ⟨"B", ⟨some "boom", none, some (some "closefail")⟩⟩]
      (List.Forall₂.cons ⟨rfl, rfl⟩ (List.Forall₂.cons ⟨rfl, rfl⟩ List.Forall₂.nil))

/-- C2: when every Init succeeds and the plugin at index k = pre.length is
the first whose AfterInit fails, the startup unit emits all Init calls, the
AfterInit calls of the capable plugins before k, the failing AfterInit call,
and then the Close calls of the full registered list (those plugins that
implement Close) in strict descending order from the last index to 0, and
reports the afterInitErr naming the failing plugin with its error and the
elapsed phase duration. -/
theorem C2_afterinit_fail_full_unwind (pre post : List NamedPlugin)
    (pf : NamedPlugin) (dI dA : Int) (err : String)
    (hinit : ∀ p ∈ pre ++ pf :: post, p.plugin.initRes = none)
    (hpre : ∀ q ∈ pre, ∀ e, q.plugin.afterInit ≠ some (some e))
    (hpf : pf.plugin.afterInit = some (some err)) :
    (startExec (pre ++ pf :: post) dI dA).2.2
        = some (StartErr.afterInitErr pf.pluginName err dA) ∧
    (startExec (pre ++ pf :: post) dI dA).2.1.events
      = (List.range (pre ++ pf :: post).length).map Event.initCall
          ++ afterCallsFrom 0 pre ++ [Event.afterInitCall pre.length]
          ++ ((List.range (pre ++ pf :: post).length).reverse.filter
                (hasCloseAt (pre ++ pf :: post))).map Event.closeCall := by
  obtain ⟨h1, h2⟩ := startExec_after_fail pre post pf dI dA err hinit hpre hpf
  rw [stopEvents_eq] at h2
  exact ⟨h1, h2⟩

/-- Witness for C2: plugins A (Init ok, no AfterInit), B (AfterInit fails),
C (Init ok, AfterInit present); the full list is closed in reverse. -/
theorem C2_afterinit_fail_full_unwind_witness :
    (∀ p ∈ ([⟨"A", ⟨none, none, some none⟩⟩]
        ++ (⟨"B", ⟨none, some (some "postboom"), some none⟩⟩ : NamedPlugin)
          :: [⟨"C", ⟨none, some none, none⟩⟩]), p.plugin.initRes = none) ∧
    (startExec
        ([⟨"A", ⟨none, none, some none⟩⟩]
          ++ (⟨"B", ⟨none, some (some "postboom"), some none⟩⟩ : NamedPlugin)
            :: [⟨"C", ⟨none, some none, none⟩⟩]) 5 7).2.2
      = some (StartErr.afterInitErr "B" "postboom" 7) := by
  refine ⟨by decide, ?_⟩
  exact (C2_afterinit_fail_full_unwind [⟨"A", ⟨none, none, some none⟩⟩]
    [⟨"C", ⟨none, some none, none⟩⟩]
    ⟨"B", ⟨none, some (some "postboom"), some none⟩⟩ 5 7 "postboom"
    (by decide) (by simp) (by decide)).1

/-- C3: Stop iterates the full registered list in strict reverse
registration order, invokes the Close of each plugin that implements it
exactly once, never invokes Close on a plugin without it, never
short-circuits, and returns the aggregated error joining each failing
plugin name and message with the "; " delimiter when any Close failed, and
no error otherwise. -/
theorem C3_stop_reverse_aggregate (plugins : List NamedPlugin) :
    (stop plugins).1
      = ((List.range plugins.length).reverse.filter (hasCloseAt plugins)).map
          Event.closeCall ∧
    (∀ j, j < plugins.length → hasCloseAt plugins j →
        (stop plugins).1.count (Event.closeCall j) = 1) ∧
    (∀ j, ¬hasCloseAt plugins j → Event.closeCall j ∉ (stop plugins).1) ∧
    (stop plugins).2
      = (if closeFailsDesc plugins plugins.length = [] then none
         else some (joined (closeFailsDesc plugins plugins.length))) := by
  have hev := stop_events_eq plugins
  have hinj : Function.Injective Event.closeCall := by
    intro a b h
    injection h
  have hnd : ((List.range plugins.length).reverse.filter
      (hasCloseAt plugins)).map Event.closeCall |>.Nodup :=
    List.Nodup.map hinj
      (List.Nodup.filter _ (List.nodup_reverse.mpr (List.nodup_range _)))
  refine ⟨hev, ?_, ?_, stop_msg_eq plugins⟩
  · intro j hlt hclose
    rw [hev]
    apply List.count_eq_one_of_mem hnd
    simp only [List.mem_map, List.mem_filter, List.mem_reverse, List.mem_range,
      Event.closeCall.injEq]
    exact ⟨j, ⟨hlt, hclose⟩, rfl⟩
  · intro j hclose
    rw [hev]
    intro hmem
    simp only [List.mem_map, List.mem_filter, List.mem_reverse, List.mem_range,
      Event.closeCall.injEq] at hmem
    obtain ⟨a, ⟨_, ha⟩, rfl⟩ := hmem
    exact hclose ha

/-- Witness for C3 at a three-plugin list with one failing Close and one
plugin without Close. -/
theorem C3_stop_reverse_aggregate_witness :
    (stop [⟨"A", ⟨none, none, some (some "closeboom")⟩⟩,
        ⟨"B", ⟨none, none, none⟩⟩, ⟨"C", ⟨none, none, some none⟩⟩]).1
      = [Event.closeCall 2, Event.closeCall 0] ∧
    (stop [⟨"A", ⟨none, none, some (some "closeboom")⟩⟩,
        ⟨"B", ⟨none, none, none⟩⟩, ⟨"C", ⟨none, none, some none⟩⟩]).2
      = some "A: closeboom" := by
  have h := C3_stop_reverse_aggregate
    [⟨"A", ⟨none, none, some (some "closeboom")⟩⟩,
      ⟨"B", ⟨none, none, none⟩⟩, ⟨"C", ⟨none, none, some none⟩⟩]
  refine ⟨?_, ?_⟩
  · rw [h.1]
    decide
  · rw [h.2.2.2]
    decide

/-- C9: for a duplicate-free registered list and a subset S of it (in
registration order), calculateDiff returns exactly the registered plugins
not contained in S, keeps registration order, and S together with the
returned list partitions the registered list. -/
theorem C9_calculateDiff_partition (plugins S : List NamedPlugin)
    (hnd : plugins.Nodup) (hsub : S.Sublist plugins) :
    (calculateDiff plugins S).Sublist plugins ∧
    (∀ p, p ∈ calculateDiff plugins S ↔ p ∈ plugins ∧ p ∉ S) ∧
    (S ++ calculateDiff plugins S).Perm plugins := by
  refine ⟨List.filter_sublist _, ?_, ?_⟩
  · intro p
    simp only [calculateDiff, List.mem_filter, Bool.not_eq_eq_eq_not, Bool.not_true,
      List.any_eq_true, beq_iff_eq]
    constructor
    · rintro ⟨hp, hno⟩
      refine ⟨hp, fun hmem => ?_⟩
      rw [Bool.eq_false_iff] at hno
      exact hno (List.any_eq_true.mpr ⟨p, hmem, beq_self_eq_true p⟩)
    · rintro ⟨hp, hno⟩
      refine ⟨hp, ?_⟩
      rw [Bool.eq_false_iff]
      intro hcontra
      rw [List.any_eq_true] at hcontra
      obtain ⟨q, hq, hqp⟩ := hcontra
      rw [beq_iff_eq] at hqp
      exact hno (hqp ▸ hq)
  · have hperm := List.filter_append_perm
      (fun p => S.any (fun q => q == p)) plugins
    rw [filter_mem_of_sublist plugins S hnd hsub] at hperm
    exact hperm

/-- Witness for C9 at a concrete three-plugin list with S the middle
plugin. -/
theorem C9_calculateDiff_partition_witness :
    ([⟨"A", ⟨none, none, none⟩⟩, ⟨"B", ⟨none, some none, none⟩⟩,
        ⟨"C", ⟨none, none, none⟩⟩] : List NamedPlugin).Nodup ∧
    ([⟨"B", ⟨none, some none, none⟩⟩] : List NamedPlugin).Sublist
      [⟨"A", ⟨none, none, none⟩⟩, ⟨"B", ⟨none, some none, none⟩⟩,
        ⟨"C", ⟨none, none, none⟩⟩] ∧
    (([⟨"B", ⟨none, some none, none⟩⟩] : List NamedPlugin)
        ++ calculateDiff
            [⟨"A", ⟨none, none, none⟩⟩, ⟨"B", ⟨none, some none, none⟩⟩,
              ⟨"C", ⟨none, none, none⟩⟩]
            [⟨"B", ⟨none, some none, none⟩⟩]).Perm
      [⟨"A", ⟨none, none, none⟩⟩, ⟨"B", ⟨none, some none, none⟩⟩,
        ⟨"C", ⟨none, none, none⟩⟩] :=
  ⟨by decide, by decide,
    (C9_calculateDiff_partition
      [⟨"A", ⟨none, none, none⟩⟩, ⟨"B", ⟨none, some none, none⟩⟩,
        ⟨"C", ⟨none, none, none⟩⟩]
      [⟨"B", ⟨none, some none, none⟩⟩] (by decide) (by decide)).2.2⟩

/-- C6: at every interleaving point of Start and in its final state, the
phase-1-success list and the phase-2-success list are subsequences of the
registered list (hence in registration order), and every plugin in the
phase-2-success list is in the phase-1-success list and implements the
AfterInit capability. -/
theorem C6_success_sets_invariant (plugins : List NamedPlugin) (dI dA : Int) :
    ∀ st2, (st2 ∈ (startExec plugins dI dA).1 ∨ st2 = (startExec plugins dI dA).2.1) →
      st2.initSuccess.Sublist plugins ∧
      st2.afterInitSuccess.Sublist plugins ∧
      ∀ p ∈ st2.afterInitSuccess, p ∈ st2.initSuccess ∧ p.plugin.afterInit.isSome := by
  intro st2 hmem
  rcases heq : initLoop plugins dI initialState 0 plugins with ⟨snaps1, fin1, res1⟩
  have hphase1 :
      (st2 = (initLoop plugins dI initialState 0 plugins).2.1 ∨
        st2 ∈ (initLoop plugins dI initialState 0 plugins).1) →
      st2.initSuccess.Sublist plugins ∧
      st2.afterInitSuccess.Sublist plugins ∧
      ∀ p ∈ st2.afterInitSuccess, p ∈ st2.initSuccess ∧ p.plugin.afterInit.isSome := by
    intro h
    obtain ⟨⟨s, hs, hsub⟩, hafter⟩ :=
      initLoop_state_general plugins dI plugins initialState 0 st2 h
    rw [show initialState.initSuccess = [] from rfl] at hs
    rw [show initialState.afterInitSuccess = [] from rfl] at hafter
    refine ⟨?_, ?_, ?_⟩
    · rw [hs]; simpa using hsub
    · rw [hafter]; exact List.nil_sublist _
    · intro p hp
      rw [hafter] at hp
      exact absurd hp (List.not_mem_nil p)
  have hbase : st2 = initialState →
      st2.initSuccess.Sublist plugins ∧
      st2.afterInitSuccess.Sublist plugins ∧
      ∀ p ∈ st2.afterInitSuccess, p ∈ st2.initSuccess ∧ p.plugin.afterInit.isSome := by
    intro h
    subst h
    refine ⟨List.nil_sublist _, List.nil_sublist _, ?_⟩
    intro p hp
    exact absurd hp (List.not_mem_nil p)
  cases res1 with
  | some e0 =>
    rw [startExec_eq_of_fail plugins dI dA snaps1 fin1 e0 heq] at hmem
    dsimp only at hmem
    rcases hmem with h | h
    · rcases List.mem_cons.mp h with h2 | h2
      · exact hbase h2
      · exact hphase1 (by rw [heq]; exact Or.inr h2)
    · exact hphase1 (by rw [heq]; exact Or.inl h)
  | none =>
    rw [startExec_eq_of_none plugins dI dA snaps1 fin1 heq] at hmem
    dsimp only at hmem
    have hfin1 : fin1.initSuccess = plugins := by
      have h5 := initLoop_none_initSuccess plugins dI plugins initialState 0
      rw [heq] at h5
      dsimp only at h5
      simpa [initialState] using h5 rfl
    have hfin1after : fin1.afterInitSuccess = [] := by
      have h5 := (initLoop_state_general plugins dI plugins initialState 0 fin1
        (by rw [heq]; exact Or.inl rfl)).2
      simpa [initialState] using h5
    have hphase2 :
        (st2 = (afterInitLoop plugins dA fin1 0 plugins).2.1 ∨
          st2 ∈ (afterInitLoop plugins dA fin1 0 plugins).1) →
        st2.initSuccess.Sublist plugins ∧
        st2.afterInitSuccess.Sublist plugins ∧
        ∀ p ∈ st2.afterInitSuccess, p ∈ st2.initSuccess ∧ p.plugin.afterInit.isSome := by
      intro h
      obtain ⟨⟨s, hs, hsub, hcap⟩, hinit⟩ :=
        afterInitLoop_state_general plugins dA plugins fin1 0 st2 h
      rw [hfin1after] at hs
      rw [hfin1] at hinit
      simp only [List.nil_append] at hs
      refine ⟨?_, ?_, ?_⟩
      · rw [hinit]
      · rw [hs]; exact hsub
      · intro p hp
        rw [hs] at hp
        refine ⟨?_, hcap p hp⟩
        rw [hinit]
        exact hsub.subset hp
    rcases hmem with h | h
    · rcases List.mem_cons.mp h with h2 | h2
      · exact hbase h2
      · rcases List.mem_append.mp h2 with h3 | h3
        · exact hphase1 (by rw [heq]; exact Or.inr h3)
        · exact hphase2 (Or.inr h3)
    · exact hphase2 (Or.inl h)

/-- Witness for C6 at a concrete list and the initial interleaving point. -/
theorem C6_success_sets_invariant_witness :
    (initialState ∈ (startExec [⟨"A", ⟨none, some none, some none⟩⟩,
          ⟨"B", ⟨none, none, none⟩⟩] 5 7).1 ∨
      initialState = (startExec [⟨"A", ⟨none, some none, some none⟩⟩,
          ⟨"B", ⟨none, none, none⟩⟩] 5 7).2.1) ∧
    initialState.initSuccess.Sublist
      [⟨"A", ⟨none, some none, some none⟩⟩, ⟨"B", ⟨none, none, none⟩⟩] :=
  ⟨Or.inl (by decide),
    (C6_success_sets_invariant
      [⟨"A", ⟨none, some none, some none⟩⟩, ⟨"B", ⟨none, none, none⟩⟩] 5 7
      initialState (Or.inl (by decide))).1⟩

/-- C8: a plugin without the AfterInit capability never receives an
AfterInit call, never appears in the phase-2-success list, and the
afterInitErr (when one is reported) always originates from a plugin that
implements the capability. -/
theorem C8_no_capability_skipped (plugins : List NamedPlugin) (dI dA : Int)
    (i : Nat) (hi : i < plugins.length)
    (hcap : plugins[i].plugin.afterInit = none) :
    Event.afterInitCall i ∉ (startExec plugins dI dA).2.1.events ∧
    plugins[i] ∉ (startExec plugins dI dA).2.1.afterInitSuccess ∧
    ∀ nm e d2, (startExec plugins dI dA).2.2 = some (StartErr.afterInitErr nm e d2) →
      ∃ p, p ∈ plugins ∧ p.pluginName = nm ∧ p.plugin.afterInit = some (some e) := by
  rcases heq : initLoop plugins dI initialState 0 plugins with ⟨snaps1, fin1, res1⟩
  have hno_after_fin1 : ∀ j, Event.afterInitCall j ∉ fin1.events := by
    intro j hj
    have h5 := initLoop_events_general plugins dI plugins initialState 0
      (Event.afterInitCall j) (by rw [heq]; exact hj)
    rcases h5 with h | h | h
    · simp [initialState] at h
    · obtain ⟨k, hk⟩ := h
      exact absurd hk (by simp)
    · obtain ⟨k, hk⟩ := h
      exact absurd hk (by simp)
  have hfin1after : fin1.afterInitSuccess = [] := by
    have h5 := (initLoop_state_general plugins dI plugins initialState 0 fin1
      (by rw [heq]; exact Or.inl rfl)).2
    simpa [initialState] using h5
  cases res1 with
  | some e0 =>
    rw [startExec_eq_of_fail plugins dI dA snaps1 fin1 e0 heq]
    dsimp only
    refine ⟨hno_after_fin1 i, ?_, ?_⟩
    · rw [hfin1after]
      exact List.not_mem_nil _
    · intro nm e d2 hres
      rcases initLoop_result_shape plugins dI plugins initialState 0 with h | ⟨p, e2, _, _, hr⟩
      · rw [heq] at h
        dsimp only at h
        exact absurd h (by simp)
      · rw [heq] at hr
        dsimp only at hr
        rw [hr] at hres
        exact absurd hres (by simp)
  | none =>
    rw [startExec_eq_of_none plugins dI dA snaps1 fin1 heq]
    dsimp only
    refine ⟨?_, ?_, ?_⟩
    · intro hj
      rcases afterInitLoop_calls plugins dA plugins fin1 0 i hj with h | ⟨_, p, hget, hcapP⟩
      · exact hno_after_fin1 i h
      · rw [Nat.sub_zero, List.getElem?_eq_getElem hi] at hget
        have hp : p = plugins[i] := by
          injection hget with h2
          exact h2.symm
        rw [hp, hcap] at hcapP
        simp at hcapP
    · obtain ⟨⟨s, hs, _, hcapS⟩, _⟩ :=
        afterInitLoop_state_general plugins dA plugins fin1 0
          (afterInitLoop plugins dA fin1 0 plugins).2.1 (Or.inl rfl)
      rw [hs, hfin1after]
      simp only [List.nil_append]
      intro hmem
      have h6 := hcapS _ hmem
      rw [hcap] at h6
      simp at h6
    · intro nm e d2 hres
      rcases afterInitLoop_result_shape plugins dA plugins fin1 0 with h | ⟨p, e2, hp, hpe, hr⟩
      · rw [h] at hres
        exact absurd hres (by simp)
      · rw [hr] at hres
        simp only [Option.some.injEq, StartErr.afterInitErr.injEq] at hres
        obtain ⟨hname, herr, _⟩ := hres
        exact ⟨p, hp, hname, herr ▸ hpe⟩

/-- Witness for C8: plugin B (index 1) has no AfterInit capability. -/
theorem C8_no_capability_skipped_witness :
    1 < ([⟨"A", ⟨none, some none, some none⟩⟩, ⟨"B", ⟨none, none, none⟩⟩] :
        List NamedPlugin).length ∧
    Event.afterInitCall 1 ∉
      (startExec [⟨"A", ⟨none, some none, some none⟩⟩,
          ⟨"B", ⟨none, none, none⟩⟩] 5 7).2.1.events := by
  have hi : 1 < ([⟨"A", ⟨none, some none, some none⟩⟩, ⟨"B", ⟨none, none, none⟩⟩] :
      List NamedPlugin).length := by decide
  have hc : ([⟨"A", ⟨none, some none, some none⟩⟩, ⟨"B", ⟨none, none, none⟩⟩] :
      List NamedPlugin)[1].plugin.afterInit = none := rfl
  exact ⟨hi,
    (C8_no_capability_skipped
      [⟨"A", ⟨none, some none, some none⟩⟩, ⟨"B", ⟨none, none, none⟩⟩] 5 7 1 hi hc).1⟩

/-- C5: when the deadline fires while the background startup unit is at
interleaving point t (here for runs whose plugin calls all succeed, so that
no failure-path rollback is interleaved), the select returns the timeout
error built from the currentlyProcessing marker of that state, leaves the
background state untouched, and triggers no Close call: the observed trace
contains no rollback. -/
theorem C5_timeout_no_rollback (plugins : List NamedPlugin) (dI dA : Int) (t : Nat)
    (hinit : ∀ p ∈ plugins, p.plugin.initRes = none)
    (hafter : ∀ p ∈ plugins, ∀ e, p.plugin.afterInit ≠ some (some e))
    (ht : t < (startExec plugins dI dA).1.length) :
    (timeoutResult plugins dI dA t).2
      = StartErr.timeout (timeoutResult plugins dI dA t).1.marker ∧
    (timeoutResult plugins dI dA t).1
      = ((startExec plugins dI dA).1).getD t initialState ∧
    ∀ j, Event.closeCall j ∉ (timeoutResult plugins dI dA t).1.events := by
  rcases heq : initLoop plugins dI initialState 0 plugins with ⟨snaps1, fin1, res1⟩
  obtain ⟨h1, h2, _, _⟩ := initLoop_ok plugins dI plugins initialState 0 hinit
  rw [heq] at h1 h2
  dsimp only at h1 h2
  subst h1
  have hfin1_noclose : ∀ k, Event.closeCall k ∉ fin1.events := by
    intro k hk
    rw [h2] at hk
    simp [initialState] at hk
  have hall : ∀ st2, st2 ∈ (startExec plugins dI dA).1 →
      ∀ j, Event.closeCall j ∉ st2.events := by
    intro st2 hmem j hj
    rw [startExec_eq_of_none plugins dI dA snaps1 fin1 heq] at hmem
    dsimp only at hmem
    rcases List.mem_cons.mp hmem with h | h
    · rw [h] at hj
      simp [initialState] at hj
    · rcases List.mem_append.mp h with h3 | h3
      · have h5 := initLoop_no_close_ok plugins dI plugins initialState 0 hinit st2
          (by rw [heq]; exact Or.inr h3) j hj
        simp [initialState] at h5
      · have h5 := afterInitLoop_no_close_ok plugins dA plugins fin1 0 hafter st2
          (Or.inr h3) j hj
        exact hfin1_noclose j h5
  refine ⟨rfl, rfl, ?_⟩
  intro j hj
  have hmem : ((startExec plugins dI dA).1).getD t initialState
      ∈ (startExec plugins dI dA).1 := by
    rw [List.getD_eq_getElem _ _ ht]
    exact List.getElem_mem ht
  exact hall _ hmem j hj

/-- Witness for C5 at a one-plugin list and interleaving point 1 (the state
in which Init of plugin A is in flight). -/
theorem C5_timeout_no_rollback_witness :
    (1 < (startExec [⟨"A", ⟨none, some none, some none⟩⟩] 5 7).1.length) ∧
    (timeoutResult [⟨"A", ⟨none, some none, some none⟩⟩] 5 7 1).2
      = StartErr.timeout
          (timeoutResult [⟨"A", ⟨none, some none, some none⟩⟩] 5 7 1).1.marker ∧
    ∀ j, Event.closeCall j ∉
      (timeoutResult [⟨"A", ⟨none, some none, some none⟩⟩] 5 7 1).1.events := by
  have ht : 1 < (startExec [⟨"A", ⟨none, some none, some none⟩⟩] 5 7).1.length := by
    decide
  have h := C5_timeout_no_rollback [⟨"A", ⟨none, some none, some none⟩⟩] 5 7 1
    (by decide) (by simp) ht
  exact ⟨ht, h.1, h.2.2⟩

/-- C10: before each Init call the marker is set to the plugin name with
the " Init()" suffix (two interleaving points per plugin both carry it),
during phase 2 the marker is set to the plugin name with the " AfterInit()"
suffix for every plugin in registration order, including plugins without the
capability (which contribute exactly one interleaving point), and the
timeout message embeds the whole marker string verbatim rather than the
bare plugin name. -/
theorem C10_marker_protocol (plugins : List NamedPlugin) (dI dA : Int)
    (hinit : ∀ p ∈ plugins, p.plugin.initRes = none)
    (hafter : ∀ p ∈ plugins, ∀ e, p.plugin.afterInit ≠ some (some e)) :
    ((initLoop plugins dI initialState 0 plugins).1).map (fun s => s.marker)
      = plugins.flatMap
          (fun p => [p.pluginName ++ " Init()", p.pluginName ++ " Init()"]) ∧
    ((afterInitLoop plugins dA (initLoop plugins dI initialState 0 plugins).2.1 0
        plugins).1).map (fun s => s.marker)
      = plugins.flatMap
          (fun p =>
            match p.plugin.afterInit with
            | none => [p.pluginName ++ " AfterInit()"]
            | some _ => [p.pluginName ++ " AfterInit()",
                p.pluginName ++ " AfterInit()"]) ∧
    ∀ cp, logTimeoutMsg cp = "plugin " ++ cp ++ " not completed before timeout" :=
  ⟨initLoop_snaps_markers plugins dI plugins initialState 0 hinit,
    afterInitLoop_snaps_markers plugins dA plugins
      (initLoop plugins dI initialState 0 plugins).2.1 0 hafter,
    fun _ => rfl⟩

/-- Witness for C10: plugin A has the capability, plugin B does not; B
still gets one AfterInit marker point. -/
theorem C10_marker_protocol_witness :
    ((afterInitLoop [⟨"A", ⟨none, some none, none⟩⟩, ⟨"B", ⟨none, none, none⟩⟩] 7
        (initLoop [⟨"A", ⟨none, some none, none⟩⟩, ⟨"B", ⟨none, none, none⟩⟩] 5
          initialState 0
          [⟨"A", ⟨none, some none, none⟩⟩, ⟨"B", ⟨none, none, none⟩⟩]).2.1 0
        [⟨"A", ⟨none, some none, none⟩⟩, ⟨"B", ⟨none, none, none⟩⟩]).1).map
      (fun s => s.marker)
      = ["A AfterInit()", "A AfterInit()", "B AfterInit()"] := by
  have h := (C10_marker_protocol
    [⟨"A", ⟨none, some none, none⟩⟩, ⟨"B", ⟨none, none, none⟩⟩] 5 7
    (by decide) (by simp)).2.1
  rw [h]
  decide

end AgentCore
